import Mathlib

/-!
Shallow embedding of the order-reconciliation pipeline (app.py):
field coercion (`normalize_order_no`, `to_number`), standardization
(`standardize`), set-based three-way comparison (`compare_orders`),
aggregation (`build_summary`) and the paginated report read
(`report_page`).  Monetary values are modelled as exact rationals;
`round(x, 2)` is modelled as rounding to the nearest hundredth.
-/

namespace App

/-- Python cell values as they can reach the coercion functions: a string
(the usual case, since the table is read with all cells as text), `None`,
an integer, or a boolean.  Used to model Python truthiness (`value or ""`). -/
inductive Cell where
  | none : Cell
  | str : String → Cell
  | int : Int → Cell
  | bool : Bool → Cell
deriving DecidableEq, Inhabited

/-- Python truthiness of a cell: `None`, `""`, `0` and `False` are falsy. -/
def Cell.truthy : Cell → Bool
  | Cell.none => false
  | Cell.str s => !(s == "")
  | Cell.int n => !(n == 0)
  | Cell.bool b => b

/-- Python `str(·)` on a cell value. -/
def Cell.pyStr : Cell → String
  | Cell.none => "None"
  | Cell.str s => s
  | Cell.int n => toString n
  | Cell.bool b => if b then "True" else "False"

/-- Models `str(value or "")`: the text of a truthy cell, else the empty string. -/
def cellText (c : Cell) : String :=
  if c.truthy then c.pyStr else ""

/-- Drop leading and trailing whitespace from a character list. -/
def trimChars (cs : List Char) : List Char :=
  ((cs.dropWhile Char.isWhitespace).reverse.dropWhile Char.isWhitespace).reverse

/-- Python `str.strip()`: drop leading and trailing whitespace. -/
def pyStrip (s : String) : String := ⟨trimChars s.data⟩

/-- Models `re.sub(r"\s+", "", text)`: remove every whitespace character. -/
def stripAllWhitespace (s : String) : String :=
  ⟨s.data.filter (fun c => !c.isWhitespace)⟩

/-- Models `re.sub(r"\D", "", text)`: keep only digit characters. -/
def stripNonDigits (s : String) : String :=
  ⟨s.data.filter (fun c => c.isDigit)⟩

/-- Embeds `normalize_order_no` (app.py:41-46): coerce via `str(value or "")`,
strip, return `""` on blank, else remove all whitespace and all non-digits. -/
def normalize_order_no (value : Cell) : String :=
  let text := pyStrip (cellText value)
  if text = "" then ""
  else stripNonDigits (stripAllWhitespace text)

/-- Numeric value of a digit list (most significant first). -/
def digitsVal (cs : List Char) : Nat :=
  cs.foldl (fun n c => n * 10 + (c.toNat - 48)) 0

/-- Models Python `float(text)` on whitespace-free text, as an exact rational:
optional sign, then digits with an optional decimal point (at least one digit
required), then an optional exponent part.  `inf`/`nan` and digit-group
underscores are outside the rational model and are treated as parse failure. -/
def parseFloat (s : String) : Option ℚ :=
  let cs := s.data
  let sgn : ℚ := if cs.head? = some '-' then -1 else 1
  let cs := if cs.head? = some '-' ∨ cs.head? = some '+' then cs.tail else cs
  let ip := cs.takeWhile Char.isDigit
  let cs := cs.dropWhile Char.isDigit
  let hasDot := cs.head? = some '.'
  let cs := if hasDot then cs.tail else cs
  let fp := if hasDot then cs.takeWhile Char.isDigit else []
  let cs := if hasDot then cs.dropWhile Char.isDigit else cs
  if ip = [] ∧ fp = [] then Option.none
  else
    let mant : ℚ := (digitsVal ip : ℚ) + (digitsVal fp : ℚ) / (10 : ℚ) ^ fp.length
    match cs with
    | [] => some (sgn * mant)
    | e :: rest =>
      if e = 'e' ∨ e = 'E' then
        let esgn : Int := if rest.head? = some '-' then -1 else 1
        let rest := if rest.head? = some '-' ∨ rest.head? = some '+' then rest.tail else rest
        let ed := rest.takeWhile Char.isDigit
        let rest := rest.dropWhile Char.isDigit
        if ed = [] ∨ rest ≠ [] then Option.none
        else some (sgn * mant * (10 : ℚ) ^ (esgn * (digitsVal ed : Int)))
      else Option.none

/-- Embeds `to_number` (app.py:49-57): coerce via `str(value or "")`, strip,
return the default on blank, else remove `¥`, `,` and whitespace and parse as
a decimal, returning the default on parse failure. -/
def to_number (value : Cell) (default : ℚ) : ℚ :=
  let text := pyStrip (cellText value)
  if text = "" then default
  else
    let cleaned : String := ⟨text.data.filter (fun c => !(c == '¥' || c == ',' || c.isWhitespace))⟩
    match parseFloat cleaned with
    | some q => q
    | Option.none => default

/-- Models Python `round(x, 2)`: round to the nearest hundredth. -/
def round2 (x : ℚ) : ℚ := (round (x * 100) : ℤ) / 100

/-- A canonical standardized record (one row of the `work` frame). -/
structure StdRecord where
  order_no : String
  product_name : String
  sales_amount : ℚ
  cost_amount : ℚ
  status : String
deriving DecidableEq, Inhabited

/-- A raw-table row: column name to cell value. -/
def Row : Type := List (String × Cell)

instance : DecidableEq Row := by unfold Row; infer_instance

instance : Inhabited Row := ⟨([] : List (String × Cell))⟩

/-- Cell of a row under a column name (first matching column). -/
def Row.cell (r : Row) (col : String) : Cell :=
  match (r : List (String × Cell)).find? (fun p => p.1 == col) with
  | some p => p.2
  | Option.none => Cell.none

/-- An uploaded raw table: column names and rows. -/
structure RawTable where
  cols : List String
  rows : List Row
deriving DecidableEq, Inhabited

/-- A column mapping, in the key order of the dict built by the caller
(app.py:318-331); an empty string stands for an absent/blank mapping value. -/
structure Mapping where
  order_no : String
  status : String
  product_name : String
  sales_amount : String
  cost_amount : String
deriving DecidableEq, Inhabited

/-- Models `mapping.get(k)` for the five known keys. -/
def Mapping.get (m : Mapping) (k : String) : String :=
  if k = "order_no" then m.order_no
  else if k = "status" then m.status
  else if k = "product_name" then m.product_name
  else if k = "sales_amount" then m.sales_amount
  else if k = "cost_amount" then m.cost_amount
  else ""

/-- Models `mapping.items()` in dict insertion order. -/
def Mapping.items (m : Mapping) : List (String × String) :=
  [("order_no", m.order_no), ("status", m.status), ("product_name", m.product_name),
   ("sales_amount", m.sales_amount), ("cost_amount", m.cost_amount)]

/-- Required mapping keys (app.py:67). -/
def requiredKeys : List String := ["order_no", "product_name", "sales_amount"]

/-- The acceptance status set `ALLOWED_STATUS` (app.py:17). -/
def ALLOWED_STATUS : List String := ["交易成功", "已发货", "已收货"]

/-- Column projection of one raw row (app.py:76-90). -/
def projectRow (m : Mapping) (default_cost : ℚ) (r : Row) : StdRecord :=
  { order_no := normalize_order_no (r.cell m.order_no)
    product_name := pyStrip (r.cell m.product_name).pyStr
    sales_amount := to_number (r.cell m.sales_amount) 0
    cost_amount :=
      if m.cost_amount ≠ "" then to_number (r.cell m.cost_amount) default_cost
      else default_cost
    status := if m.status ≠ "" then pyStrip (r.cell m.status).pyStr else "" }

/-- The projected `work` frame before any row removal (app.py:76-90). -/
def projectTable (df : RawTable) (m : Mapping) (default_cost : ℚ) : List StdRecord :=
  df.rows.map (projectRow m default_cost)

/-- The `work` frame after removing rows with an empty order key (app.py:94). -/
def nonEmptyKey (df : RawTable) (m : Mapping) (default_cost : ℚ) : List StdRecord :=
  (projectTable df m default_cost).filter (fun r => r.order_no != "")

/-- Models `work.duplicated(subset=["order_no"], keep=False).sum()` on the key
list: the number of rows whose key occurs at least twice (app.py:97). -/
def dupRowCount (ks : List String) : Nat :=
  (ks.filter (fun k => decide (2 ≤ ks.count k))).length

/-- Models `drop_duplicates(subset=["order_no"], keep="first")` (app.py:98):
keep a row only when its key has not been seen before. -/
def dropDupKeys (seen : List String) : List StdRecord → List StdRecord
  | [] => []
  | r :: rs =>
    if r.order_no ∈ seen then dropDupKeys seen rs
    else r :: dropDupKeys (r.order_no :: seen) rs

/-- The optional status-filter step (app.py:100-104): the kept rows and the
number of rows removed. -/
def statusFilter (filter_status : Bool) (m : Mapping) (l : List StdRecord) :
    List StdRecord × Nat :=
  if filter_status ∧ m.status ≠ "" then
    let kept := l.filter (fun r => ALLOWED_STATUS.contains r.status)
    (kept, l.length - kept.length)
  else (l, 0)

/-- Per-source statistics block (app.py:106-113). -/
structure SourceStats where
  source : String
  total_rows : Nat
  empty_order_removed : Nat
  duplicate_rows : Nat
  status_filtered_rows : Nat
  kept_rows : Nat
deriving DecidableEq, Inhabited

/-- Embeds `standardize` (app.py:60-115): validate the mapping (raising
`ValueError`, modelled as `Except.error`, on missing required keys or on the
first mapping entry naming a nonexistent column), project the columns, drop
empty-key rows, count and collapse duplicate keys, optionally filter by
status, and emit the statistics block. -/
def standardize (df : RawTable) (m : Mapping) (source_name : String)
    (default_cost : ℚ) (filter_status : Bool) :
    Except String (List StdRecord × SourceStats) :=
  let missing := requiredKeys.filter (fun k => m.get k == "")
  if missing ≠ [] then
    Except.error (source_name ++ " 映射缺失字段：" ++ String.intercalate ", " missing)
  else
    match m.items.find? (fun p => p.2 != "" && !(df.cols.contains p.2)) with
    | some p => Except.error (source_name ++ " 映射字段不存在：" ++ p.1 ++ " -> " ++ p.2)
    | Option.none =>
      let work0 := projectTable df m default_cost
      let total_before := work0.length
      let work1 := nonEmptyKey df m default_cost
      let empty_removed := total_before - work1.length
      let duplicate_rows := dupRowCount (work1.map (fun r => r.order_no))
      let work2 := dropDupKeys [] work1
      let fres := statusFilter filter_status m work2
      Except.ok (fres.1,
        { source := source_name
          total_rows := total_before
          empty_order_removed := empty_removed
          duplicate_rows := duplicate_rows
          status_filtered_rows := fres.2
          kept_rows := fres.1.length })

/-- Column schema of the comparison result (app.py:182, with the sequence
column inserted in front as in app.py:187). -/
def resultColumns : List String :=
  ["类序号", "订单号", "商品名称", "销售额", "成本", "利润", "状态", "比对结果"]

/-- One row of the comparison result.  `seq` is the 类序号 column, `result`
the 比对结果 classification label. -/
structure CompareRow where
  seq : Nat
  order_no : String
  product_name : String
  sales_amount : ℚ
  cost_amount : ℚ
  profit : ℚ
  status : String
  result : String
deriving DecidableEq, Inhabited

/-- The comparison result: the column schema plus the rows. -/
structure CompareResult where
  columns : List String
  rows : List CompareRow
deriving DecidableEq, Inhabited

/-- The distinct order keys of a record list, modelling
`set(frame.set_index("order_no").index)` (app.py:119-123). -/
def distinctKeys (l : List StdRecord) : List String :=
  (l.map (fun r => r.order_no)).dedup

/-- Models `frame_map.loc[order_no]` under unique keys: the first record with
the given key. -/
def findRec (l : List StdRecord) (k : String) : StdRecord :=
  match l.find? (fun r => r.order_no == k) with
  | some r => r
  | Option.none => default

/-- Models Python `sorted(·)` on a set of strings. -/
def sortStrings (l : List String) : List String :=
  l.insertionSort (fun a b => a ≤ b)

/-- A matched row (app.py:131-148): official sales unless exactly zero (else
service), service cost unless exactly zero (else official), official status
unless empty (else service), service product name unless empty (else
official); displayed amounts rounded, profit rounded from the unrounded
selected values.  The sequence number is assigned later. -/
def matchedRow (official service : List StdRecord) (k : String) : CompareRow :=
  let o := findRec official k
  let s := findRec service k
  let sales := if o.sales_amount ≠ 0 then o.sales_amount else s.sales_amount
  let cost := if s.cost_amount ≠ 0 then s.cost_amount else o.cost_amount
  { seq := 0
    order_no := k
    product_name := if s.product_name ≠ "" then s.product_name else o.product_name
    sales_amount := round2 sales
    cost_amount := round2 cost
    profit := round2 (sales - cost)
    status := if o.status ≠ "" then o.status else s.status
    result := "匹配" }

/-- A missing-from-service row (app.py:150-163): all fields from the official
record. -/
def missingRow (official : List StdRecord) (k : String) : CompareRow :=
  let o := findRec official k
  { seq := 0
    order_no := k
    product_name := o.product_name
    sales_amount := round2 o.sales_amount
    cost_amount := round2 o.cost_amount
    profit := round2 (o.sales_amount - o.cost_amount)
    status := o.status
    result := "客服漏记" }

/-- An extra-in-service row (app.py:165-178): all fields from the service
record. -/
def extraRow (service : List StdRecord) (k : String) : CompareRow :=
  let s := findRec service k
  { seq := 0
    order_no := k
    product_name := s.product_name
    sales_amount := round2 s.sales_amount
    cost_amount := round2 s.cost_amount
    profit := round2 (s.sales_amount - s.cost_amount)
    status := s.status
    result := "异常订单" }

/-- Classification rank (app.py:184); only the three labels occur in rows. -/
def rankOf (label : String) : Nat :=
  if label = "匹配" then 0
  else if label = "客服漏记" then 1
  else if label = "异常订单" then 2
  else 3

/-- The sort order of app.py:186: ascending by (classification rank,
order number). -/
def rowLe (a b : CompareRow) : Prop :=
  rankOf a.result < rankOf b.result ∨
    (rankOf a.result = rankOf b.result ∧ a.order_no ≤ b.order_no)

instance : DecidableRel rowLe := fun a b => by unfold rowLe; infer_instance

/-- Models `result.insert(0, "类序号", range(1, len(result) + 1))`
(app.py:187): assign sequence numbers 1..N in order. -/
def renumber (l : List CompareRow) : List CompareRow :=
  (List.range l.length).zipWith (fun i r => { r with seq := i + 1 }) l

/-- Models `sorted(official_set & service_set)` (app.py:125). -/
def matchedIds (official service : List StdRecord) : List String :=
  sortStrings ((distinctKeys official).filter (fun k => (distinctKeys service).contains k))

/-- Models `sorted(official_set - service_set)` (app.py:126). -/
def missingIds (official service : List StdRecord) : List String :=
  sortStrings ((distinctKeys official).filter (fun k => !((distinctKeys service).contains k)))

/-- Models `sorted(service_set - official_set)` (app.py:127). -/
def extraIds (official service : List StdRecord) : List String :=
  sortStrings ((distinctKeys service).filter (fun k => !((distinctKeys official).contains k)))

/-- The row list built by the three loops of app.py:129-178, in build order:
matched rows, then missing-from-service rows, then extra-in-service rows. -/
def compareRowsRaw (official service : List StdRecord) : List CompareRow :=
  (matchedIds official service).map (matchedRow official service)
    ++ (missingIds official service).map (missingRow official)
    ++ (extraIds official service).map (extraRow service)

/-- Embeds `compare_orders` (app.py:118-188): three-way set comparison on the
distinct keys, row construction per classification, the empty-result schema
case, the (rank, order_no) sort, and sequence numbering. -/
def compare_orders (official service : List StdRecord) : CompareResult :=
  if compareRowsRaw official service = [] then { columns := resultColumns, rows := [] }
  else { columns := resultColumns,
         rows := renumber ((compareRowsRaw official service).insertionSort rowLe) }

/-- The summary-eligible status set (app.py:192). -/
def summaryStatus : List String := ["交易成功", "已收货"]

/-- The summary block (app.py:210-222). -/
structure Summary where
  total_sales : ℚ
  total_cost : ℚ
  total_profit : ℚ
  order_count : Nat
  matched_count : Nat
  summary_count : Nat
  missing_count : Nat
  abnormal_count : Nat
  loss_count : Nat
  official_stats : SourceStats
  service_stats : SourceStats
deriving DecidableEq, Inhabited

/-- Embeds `build_summary` (app.py:191-222), keeping its empty-frame
branches: matched rows, the narrower summary-eligible subset, the three
rounded totals, and the classification and loss counts. -/
def build_summary (res : CompareResult) (official_stats service_stats : SourceStats) :
    Summary :=
  let rows := res.rows
  let matched := if rows ≠ [] then rows.filter (fun r => r.result == "匹配") else rows
  let msum :=
    if matched ≠ [] then matched.filter (fun r => summaryStatus.contains r.status)
    else matched
  let total_sales : ℚ := if msum ≠ [] then (msum.map (fun r => r.sales_amount)).sum else 0
  let total_cost : ℚ := if msum ≠ [] then (msum.map (fun r => r.cost_amount)).sum else 0
  let total_profit : ℚ := if msum ≠ [] then (msum.map (fun r => r.profit)).sum else 0
  { total_sales := round2 total_sales
    total_cost := round2 total_cost
    total_profit := round2 total_profit
    order_count := rows.length
    matched_count := if matched ≠ [] then matched.length else 0
    summary_count := if msum ≠ [] then msum.length else 0
    missing_count := if rows ≠ [] then rows.countP (fun r => r.result == "客服漏记") else 0
    abnormal_count := if rows ≠ [] then rows.countP (fun r => r.result == "异常订单") else 0
    loss_count := if msum ≠ [] then msum.countP (fun r => decide (r.profit < 0)) else 0
    official_stats := official_stats
    service_stats := service_stats }

/-- The payload of the paginated report read (app.py:391-399), minus the
echoed summary. -/
structure PageResult (α : Type) where
  records : List α
  page : Int
  page_size : Int
  total_rows : Int
  total_pages : Int
deriving DecidableEq

/-- Embeds the pagination logic of `report_page` (app.py:370-399), generic in
the row type: clamp the requested page to at least 1 and the page size to
[10, 500], compute total pages with a floor of 1, clamp the page down to the
last valid page, and slice `[(page-1)*page_size, page*page_size)`.  All
clamped quantities are positive, so `Int` division here agrees with Python
floor division. -/
def report_page {α : Type} (rows : List α) (pageReq psReq : Int) : PageResult α :=
  let page0 := max pageReq 1
  let ps := min (max psReq 10) 500
  let total : Int := rows.length
  let tp := max ((total + ps - 1) / ps) 1
  let page := if page0 > tp then tp else page0
  let start := (page - 1) * ps
  let stop := start + ps
  { records := if total ≠ 0 then (rows.drop start.toNat).take (stop - start).toNat else []
    page := page
    page_size := ps
    total_rows := total
    total_pages := tp }

/-! Helper lemmas about character lists and trimming. -/

theorem isDigit_not_isWhitespace {c : Char} (h : c.isDigit = true) :
    c.isWhitespace = false := by
  by_contra hw
  have hw₂ : c.isWhitespace = true := by
    cases hcw : c.isWhitespace
    · exact absurd hcw hw
    · rfl
  have : ((c = ' ' ∨ c = '\t') ∨ c = '\r') ∨ c = '\n' := by
    simpa [Char.isWhitespace] using hw₂
  rcases this with ((h1 | h1) | h1) | h1 <;> subst h1 <;> exact absurd h (by decide)

theorem mem_trimChars {c : Char} {cs : List Char} (h : c ∈ trimChars cs) : c ∈ cs := by
  unfold trimChars at h
  rw [List.mem_reverse] at h
  have h₂ := (List.dropWhile_sublist Char.isWhitespace).mem h
  rw [List.mem_reverse] at h₂
  exact (List.dropWhile_sublist Char.isWhitespace).mem h₂

theorem trimChars_eq_self {cs : List Char} (h : ∀ c ∈ cs, c.isWhitespace = false) :
    trimChars cs = cs := by
  have step : ∀ (l : List Char), (∀ c ∈ l, c.isWhitespace = false) →
      l.dropWhile Char.isWhitespace = l := by
    intro l hl
    cases l with
    | nil => rfl
    | cons a t =>
      rw [List.dropWhile_cons_of_neg]
      simp [hl a (List.mem_cons_self a t)]
  unfold trimChars
  rw [step cs h]
  rw [step cs.reverse (fun c hc => h c (List.mem_reverse.mp hc))]
  exact List.reverse_reverse cs

theorem trimChars_of_all_ws {cs : List Char} (h : ∀ c ∈ cs, c.isWhitespace = true) :
    trimChars cs = [] := by
  unfold trimChars
  rw [List.dropWhile_eq_nil_iff.mpr h]
  simp

theorem cellText_str (s : String) : cellText (Cell.str s) = s := by
  by_cases h : s = ""
  · subst h; rfl
  · simp [cellText, Cell.truthy, Cell.pyStr, h]

/-- The characters of `normalize_order_no`'s output are all digits. -/
theorem normalize_order_no_digits (c : Cell) :
    ∀ ch ∈ (normalize_order_no c).data, ch.isDigit = true := by
  intro ch hch
  unfold normalize_order_no at hch
  by_cases h : pyStrip (cellText c) = ""
  · simp [h] at hch
  · simp only [h, if_neg] at hch
    simp only [stripNonDigits, stripAllWhitespace] at hch
    exact (List.mem_filter.mp hch).2

theorem pyStrip_of_digits {s : String} (h : ∀ ch ∈ s.data, ch.isDigit = true) :
    pyStrip s = s := by
  show String.mk (trimChars s.data) = s
  rw [trimChars_eq_self (fun c hc => isDigit_not_isWhitespace (h c hc))]

/-! Claim C9 and C10: the field-coercion functions. -/

/-- C9: normalize_order_no is idempotent; its output is a digits-only
string; and it returns the empty string on null, blank, whitespace-only, and
digit-free input. -/
theorem normalize_order_no_idempotent :
    (∀ c : Cell,
      normalize_order_no (Cell.str (normalize_order_no c)) = normalize_order_no c) ∧
    (∀ c : Cell, ∀ ch ∈ (normalize_order_no c).data, ch.isDigit = true) ∧
    normalize_order_no Cell.none = "" ∧
    normalize_order_no (Cell.str "") = "" ∧
    (∀ s : String, (∀ ch ∈ s.data, ch.isWhitespace = true) →
      normalize_order_no (Cell.str s) = "") ∧
    (∀ s : String, (∀ ch ∈ s.data, ch.isDigit = false) →
      normalize_order_no (Cell.str s) = "") := by
  have hdigits := normalize_order_no_digits
  refine ⟨?_, hdigits, rfl, rfl, ?_, ?_⟩
  · intro c
    set y := normalize_order_no c with hy
    by_cases hempty : y = ""
    · rw [hempty]; rfl
    · have hd : ∀ ch ∈ y.data, ch.isDigit = true := hdigits c
      have hstrip : pyStrip y = y := pyStrip_of_digits hd
      unfold normalize_order_no
      rw [cellText_str, hstrip, if_neg hempty]
      have hws : stripAllWhitespace y = y := by
        show String.mk (y.data.filter _) = y
        have : y.data.filter (fun c => !c.isWhitespace) = y.data := by
          rw [List.filter_eq_self]
          intro a ha
          simp [isDigit_not_isWhitespace (hd a ha)]
        rw [this]
      rw [hws]
      show String.mk (y.data.filter _) = y
      have : y.data.filter (fun c => c.isDigit) = y.data := by
        rw [List.filter_eq_self]
        exact hd
      rw [this]
  · intro s hs
    unfold normalize_order_no
    rw [cellText_str]
    have : pyStrip s = "" := by
      show String.mk (trimChars s.data) = ""
      rw [trimChars_of_all_ws hs]
    rw [this]
    rfl
  · intro s hs
    unfold normalize_order_no
    rw [cellText_str]
    by_cases h : pyStrip s = ""
    · rw [h]; rfl
    · rw [if_neg h]
      show String.mk _ = ""
      have : (stripAllWhitespace (pyStrip s)).data.filter (fun c => c.isDigit) = [] := by
        rw [List.filter_eq_nil_iff]
        intro a ha
        simp only [stripAllWhitespace] at ha
        have ha₂ : a ∈ (pyStrip s).data := (List.mem_filter.mp ha).1
        have ha₃ : a ∈ s.data := mem_trimChars ha₂
        simp [hs a ha₃]
      rw [this]

/-- Witness for C9 at concrete inputs. -/
theorem normalize_order_no_idempotent_witness :
    normalize_order_no (Cell.str (normalize_order_no (Cell.str " A12 b3 "))) =
      normalize_order_no (Cell.str " A12 b3 ") ∧
    normalize_order_no (Cell.str "  ") = "" ∧
    normalize_order_no (Cell.str "abc") = "" :=
  ⟨normalize_order_no_idempotent.1 (Cell.str " A12 b3 "),
   normalize_order_no_idempotent.2.2.2.2.1 "  " (by decide),
   normalize_order_no_idempotent.2.2.2.2.2 "abc" (by decide)⟩

/-! Claim C6: `to_number`. -/

/-- C6: `to_number` returns the default unmodified on empty or
whitespace-only input; otherwise it strips exactly the characters
{¥, comma, whitespace} from the trimmed text and parses the remainder as a
decimal, returning the default (it is a total function, never an error) when
the remainder is not numeric; and the three concrete examples. -/
theorem to_number_spec :
    (∀ d : ℚ, to_number (Cell.str "") d = d) ∧
    (∀ (s : String) (d : ℚ), (∀ ch ∈ s.data, ch.isWhitespace = true) →
      to_number (Cell.str s) d = d) ∧
    (∀ (s : String) (d : ℚ), to_number (Cell.str s) d =
      match parseFloat ⟨(pyStrip s).data.filter
          (fun c => !(c == '¥' || c == ',' || c.isWhitespace))⟩ with
      | some q => q
      | Option.none => d) ∧
    to_number (Cell.str "¥1,234.50") 0 = 1234.5 ∧
    to_number (Cell.str "") 7 = 7 ∧
    to_number (Cell.str "abc") 3 = 3 := by
  have hgen : ∀ (s : String) (d : ℚ), to_number (Cell.str s) d =
      match parseFloat ⟨(pyStrip s).data.filter
          (fun c => !(c == '¥' || c == ',' || c.isWhitespace))⟩ with
      | some q => q
      | Option.none => d := by
    intro s d
    unfold to_number
    rw [cellText_str]
    by_cases h : pyStrip s = ""
    · rw [h]
      simp only [if_pos rfl]
      rfl
    · rw [if_neg h]
  refine ⟨fun d => rfl, ?_, hgen, ?_, rfl, ?_⟩
  · intro s d hs
    unfold to_number
    rw [cellText_str]
    have : pyStrip s = "" := by
      show String.mk (trimChars s.data) = ""
      rw [trimChars_of_all_ws hs]
    rw [this]
    rfl
  · rw [hgen]
    have hstr : (⟨(pyStrip "¥1,234.50").data.filter
        (fun c => !(c == '¥' || c == ',' || c.isWhitespace))⟩ : String) = "1234.50" := by
      decide
    rw [hstr]
    have h1 : digitsVal ['1', '2', '3', '4'] = 1234 := by decide
    have h2 : digitsVal ['5', '0'] = 50 := by decide
    norm_num +decide [parseFloat, h1, h2]
  · rfl

/-- Witness for C6 at a whitespace-only input. -/
theorem to_number_spec_witness :
    to_number (Cell.str " ") 5 = 5 ∧ to_number (Cell.str "¥1,234.50") 0 = 1234.5 :=
  ⟨to_number_spec.2.1 " " 5 (by decide), to_number_spec.2.2.2.1⟩

/-! Claim C10: truthiness-based coercion of falsy cells. -/

/-- C10: every falsy cell value — `None`, the number 0, `False`, or the empty
string — is treated as blank by both coercion functions: `to_number` returns
the supplied default (so an actual numeric zero yields the default, not 0)
and `normalize_order_no` returns the empty string; and any record surviving
the standardizer's empty-key removal has a non-empty order key, so a row with
such a cell in its order column is dropped there. -/
theorem falsy_cell_coercion :
    (∀ d : ℚ, to_number Cell.none d = d ∧ to_number (Cell.int 0) d = d ∧
      to_number (Cell.bool false) d = d ∧ to_number (Cell.str "") d = d) ∧
    (normalize_order_no Cell.none = "" ∧ normalize_order_no (Cell.int 0) = "" ∧
      normalize_order_no (Cell.bool false) = "" ∧ normalize_order_no (Cell.str "") = "") ∧
    (∀ (df : RawTable) (m : Mapping) (dc : ℚ) (r : StdRecord),
      r ∈ nonEmptyKey df m dc → r.order_no ≠ "") := by
  refine ⟨fun d => ⟨rfl, rfl, rfl, rfl⟩, ⟨rfl, rfl, rfl, rfl⟩, ?_⟩
  intro df m dc r hr
  have := (List.mem_filter.mp hr).2
  simpa using this

/-- Witness for C10: the numeric-zero cell yields the default 7, not 0. -/
theorem falsy_cell_coercion_witness :
    to_number (Cell.int 0) 7 = 7 ∧ normalize_order_no (Cell.int 0) = "" :=
  ⟨((falsy_cell_coercion.1 7).2.1), falsy_cell_coercion.2.1.2.1⟩

/-! Claim C7: mapping validation in `standardize`. -/

theorem missingRequired_ne_nil_iff (m : Mapping) :
    requiredKeys.filter (fun k => m.get k == "") ≠ [] ↔
      (m.order_no = "" ∨ m.product_name = "" ∨ m.sales_amount = "") := by
  by_cases h1 : m.order_no = "" <;> by_cases h2 : m.product_name = "" <;>
    by_cases h3 : m.sales_amount = "" <;>
    simp [requiredKeys, Mapping.get, h1, h2, h3]

/-- C7: `standardize` fails (and produces no output) exactly when a required
mapping key among {order_no, product_name, sales_amount} is absent/blank, or
some non-empty mapping value names a column that is not in the table; on a
missing required key the message names the missing keys, and otherwise the
message names the first offending key/column pair. -/
theorem standardize_mapping_error_iff (df : RawTable) (m : Mapping) (sn : String)
    (dc : ℚ) (fs : Bool) :
    ((∃ e, standardize df m sn dc fs = Except.error e) ↔
      (m.order_no = "" ∨ m.product_name = "" ∨ m.sales_amount = "" ∨
        ∃ p ∈ m.items, p.2 ≠ "" ∧ p.2 ∉ df.cols)) ∧
    (requiredKeys.filter (fun k => m.get k == "") ≠ [] →
      standardize df m sn dc fs = Except.error (sn ++ " 映射缺失字段：" ++
        String.intercalate ", " (requiredKeys.filter (fun k => m.get k == "")))) ∧
    (∀ k c, requiredKeys.filter (fun k => m.get k == "") = [] →
      m.items.find? (fun p => p.2 != "" && !(df.cols.contains p.2)) = some (k, c) →
      standardize df m sn dc fs = Except.error (sn ++ " 映射字段不存在：" ++ k ++ " -> " ++ c)) := by
  have hbad : ∀ p : String × String,
      (p.2 != "" && !(df.cols.contains p.2)) = true ↔ (p.2 ≠ "" ∧ p.2 ∉ df.cols) := by
    intro p
    simp
  by_cases hM : requiredKeys.filter (fun k => m.get k == "") = []
  · cases hF : m.items.find? (fun p => p.2 != "" && !(df.cols.contains p.2)) with
    | none =>
      have hstd : ∀ e, standardize df m sn dc fs ≠ Except.error e := by
        intro e
        simp only [standardize]
        rw [if_neg (fun hcon => hcon hM), hF]
        intro hcon
        exact Except.noConfusion hcon
      refine ⟨⟨fun h => Exists.elim h (fun e he => absurd he (hstd e)), fun hrhs => ?_⟩,
        fun hne => absurd hM hne, fun k c _ hsome => ?_⟩
      · exfalso
        have hmiss : ¬ (m.order_no = "" ∨ m.product_name = "" ∨ m.sales_amount = "") := by
          intro hcon
          exact absurd hM ((missingRequired_ne_nil_iff m).mpr hcon)
        rcases hrhs with h | h | h | ⟨p, hp, hprop⟩
        · exact hmiss (Or.inl h)
        · exact hmiss (Or.inr (Or.inl h))
        · exact hmiss (Or.inr (Or.inr h))
        · have := List.find?_eq_none.mp hF p hp
          exact this ((hbad p).mpr hprop)
      · exact absurd hsome (by simp)
    | some p =>
      obtain ⟨k, c⟩ := p
      have hstd : standardize df m sn dc fs =
          Except.error (sn ++ " 映射字段不存在：" ++ k ++ " -> " ++ c) := by
        simp only [standardize]
        rw [if_neg (fun hcon => hcon hM), hF]
      have hmem : (k, c) ∈ m.items := List.mem_of_find?_eq_some hF
      have hpred := List.find?_some hF
      refine ⟨⟨fun _ => Or.inr (Or.inr (Or.inr ⟨(k, c), hmem, (hbad (k, c)).mp hpred⟩)),
        fun _ => ⟨_, hstd⟩⟩, fun hne => absurd hM hne, fun k2 c2 _ hsome => ?_⟩
      have hinj := Option.some.inj hsome
      have hk : k = k2 := congrArg Prod.fst hinj
      have hc : c = c2 := congrArg Prod.snd hinj
      rw [← hk, ← hc]
      exact hstd
  · have hstd : standardize df m sn dc fs = Except.error (sn ++ " 映射缺失字段：" ++
        String.intercalate ", " (requiredKeys.filter (fun k => m.get k == ""))) := by
      simp only [standardize]
      rw [if_pos hM]
    refine ⟨⟨fun _ => ?_, fun _ => ⟨_, hstd⟩⟩, fun _ => hstd, fun k c hfil _ => absurd hfil hM⟩
    rcases (missingRequired_ne_nil_iff m).mp hM with h | h | h
    · exact Or.inl h
    · exact Or.inr (Or.inl h)
    · exact Or.inr (Or.inr (Or.inl h))

/-- Witness for C7: a mapping with a blank required key fails. -/
theorem standardize_mapping_error_iff_witness :
    ∃ e, standardize ⟨["s"], []⟩ ⟨"", "", "p", "s", ""⟩ "官方订单" 0 true = Except.error e :=
  (standardize_mapping_error_iff ⟨["s"], []⟩ ⟨"", "", "p", "s", ""⟩ "官方订单" 0 true).1.mpr
    (Or.inl rfl)

/-! Claim C2: the standardizer's statistics accounting. -/

/-- Modelled from the claim's accounting formula: the number of distinct
duplicated keys of a key list (distinct keys occurring at least twice). -/
def distinctDupKeys (ks : List String) : Nat :=
  (ks.toFinset.filter (fun a => 2 ≤ ks.count a)).card

theorem dupRowCount_eq_sum (ks : List String) :
    dupRowCount ks = ∑ a ∈ ks.toFinset.filter (fun a => 2 ≤ ks.count a), ks.count a := by
  have h0 : dupRowCount ks =
      ∑ a ∈ (ks.filter (fun k => decide (2 ≤ ks.count k))).toFinset,
        (ks.filter (fun k => decide (2 ≤ ks.count k))).count a :=
    (List.sum_toFinset_count_eq_length _).symm
  rw [h0, List.toFinset_filter]
  have hset : Finset.filter (fun x => (decide (2 ≤ ks.count x)) = true) ks.toFinset =
      Finset.filter (fun a => 2 ≤ ks.count a) ks.toFinset := by
    apply Finset.filter_congr
    intro x _
    simp
  rw [hset]
  apply Finset.sum_congr rfl
  intro a ha
  have hpa : (decide (2 ≤ ks.count a)) = true :=
    decide_eq_true (Finset.mem_filter.mp ha).2
  exact List.count_filter hpa

/-- The key lemma behind the claimed accounting identity: for any key list,
`length + distinctDupKeys = number of distinct keys + dupRowCount`. -/
theorem key_accounting (ks : List String) :
    ks.length + distinctDupKeys ks = ks.toFinset.card + dupRowCount ks := by
  rw [dupRowCount_eq_sum, distinctDupKeys]
  rw [← List.sum_toFinset_count_eq_length ks]
  rw [Finset.card_eq_sum_ones (Finset.filter _ _), Finset.card_eq_sum_ones ks.toFinset]
  rw [← Finset.sum_filter_add_sum_filter_not ks.toFinset (fun a => 2 ≤ ks.count a)
    (fun a => ks.count a)]
  rw [← Finset.sum_filter_add_sum_filter_not ks.toFinset (fun a => 2 ≤ ks.count a)
    (fun _ => 1)]
  have hone : ∑ a ∈ ks.toFinset.filter (fun a => ¬ 2 ≤ ks.count a), ks.count a =
      ∑ a ∈ ks.toFinset.filter (fun a => ¬ 2 ≤ ks.count a), 1 := by
    apply Finset.sum_congr rfl
    intro a ha
    have h1 : a ∈ ks := List.mem_toFinset.mp (Finset.mem_filter.mp ha).1
    have h2 : ¬ 2 ≤ ks.count a := (Finset.mem_filter.mp ha).2
    have h3 : 0 < ks.count a := List.count_pos_iff.mpr h1
    omega
  omega

/-- Structural properties of the duplicate-collapse step: the surviving keys
are distinct and avoid `seen`, each survivor is the first occurrence of its
key, and a key survives exactly when it occurs and is not in `seen`. -/
theorem dropDupKeys_props (l : List StdRecord) (seen : List String) :
    ((dropDupKeys seen l).map (fun r => r.order_no)).Nodup ∧
    (∀ r ∈ dropDupKeys seen l, r.order_no ∉ seen ∧
      l.find? (fun x => x.order_no == r.order_no) = some r) ∧
    (∀ k, k ∈ (dropDupKeys seen l).map (fun r => r.order_no) ↔
      (k ∈ l.map (fun r => r.order_no) ∧ k ∉ seen)) := by
  induction l generalizing seen with
  | nil => simp [dropDupKeys]
  | cons a t ih =>
    by_cases h : a.order_no ∈ seen
    · have hd : dropDupKeys seen (a :: t) = dropDupKeys seen t := by
        simp [dropDupKeys, h]
      rw [hd]
      obtain ⟨ih1, ih2, ih3⟩ := ih seen
      refine ⟨ih1, ?_, ?_⟩
      · intro r hr
        obtain ⟨hr1, hr2⟩ := ih2 r hr
        refine ⟨hr1, ?_⟩
        have hne : ¬ ((a.order_no == r.order_no) = true) := by
          intro hb
          have heq : a.order_no = r.order_no := by simpa using hb
          exact hr1 (heq ▸ h)
        rw [List.find?_cons_of_neg (p := fun x => x.order_no == r.order_no) t hne]
        exact hr2
      · intro k
        rw [ih3 k]
        simp only [List.map_cons, List.mem_cons]
        constructor
        · rintro ⟨hk, hk2⟩
          exact ⟨Or.inr hk, hk2⟩
        · rintro ⟨heq | hmem, hk2⟩
          · exact absurd (heq ▸ h) hk2
          · exact ⟨hmem, hk2⟩
    · have hd : dropDupKeys seen (a :: t) = a :: dropDupKeys (a.order_no :: seen) t := by
        simp [dropDupKeys, h]
      rw [hd]
      obtain ⟨ih1, ih2, ih3⟩ := ih (a.order_no :: seen)
      refine ⟨?_, ?_, ?_⟩
      · rw [List.map_cons, List.nodup_cons]
        refine ⟨?_, ih1⟩
        intro hmem
        exact ((ih3 a.order_no).mp hmem).2 (List.mem_cons_self _ _)
      · intro r hr
        rcases List.mem_cons.mp hr with heq | hmem
        · subst heq
          refine ⟨h, ?_⟩
          rw [List.find?_cons_of_pos _ (by simp)]
        · obtain ⟨hr1, hr2⟩ := ih2 r hmem
          have hne0 : a.order_no ≠ r.order_no :=
            fun hco => hr1 (hco ▸ List.mem_cons_self _ _)
          refine ⟨fun hcon => hr1 (List.mem_cons_of_mem _ hcon), ?_⟩
          have hne : ¬ ((a.order_no == r.order_no) = true) := by
            simpa using hne0
          rw [List.find?_cons_of_neg (p := fun x => x.order_no == r.order_no) t hne]
          exact hr2
      · intro k
        simp only [List.map_cons, List.mem_cons]
        constructor
        · intro hk
          rcases hk with heq | hmem
          · exact ⟨Or.inl heq, heq ▸ h⟩
          · obtain ⟨hm1, hm2⟩ := (ih3 k).mp hmem
            exact ⟨Or.inr hm1, fun hs => hm2 (List.mem_cons_of_mem _ hs)⟩
        · rintro ⟨heq | hmem, h2⟩
          · exact Or.inl heq
          · by_cases hak : k = a.order_no
            · exact Or.inl hak
            · refine Or.inr ((ih3 k).mpr ⟨hmem, ?_⟩)
              intro hcon
              rcases List.mem_cons.mp hcon with hc | hc
              · exact hak hc
              · exact h2 hc

theorem dropDupKeys_length (l : List StdRecord) :
    (dropDupKeys [] l).length = ((l.map (fun r => r.order_no)).toFinset).card := by
  obtain ⟨h1, _h2, h3⟩ := dropDupKeys_props l []
  have hlen : (dropDupKeys [] l).length =
      ((dropDupKeys [] l).map (fun r => r.order_no)).length := by
    rw [List.length_map]
  rw [hlen, ← List.toFinset_card_of_nodup h1]
  congr 1
  ext k
  simp only [List.mem_toFinset]
  rw [h3 k]
  simp

theorem statusFilter_acct (fs : Bool) (m : Mapping) (l : List StdRecord) :
    (statusFilter fs m l).1.length + (statusFilter fs m l).2 = l.length := by
  unfold statusFilter
  split
  · have := List.length_filter_le (fun r => ALLOWED_STATUS.contains r.status) l
    simp only
    omega
  · simp

/-- C2: when `standardize` succeeds, its statistics satisfy
`kept_rows + empty_order_removed + (duplicate_rows − distinct duplicated keys)
+ status_filtered_rows = total_rows`, where the duplicated-key quantities are
taken over the key list after empty-key removal, matching the fixed step
order (empty-key removal, then duplicate counting and collapse, then status
filtering). -/
theorem standardize_stats_accounting (df : RawTable) (m : Mapping) (sn : String)
    (dc : ℚ) (fs : Bool) (recs : List StdRecord) (stats : SourceStats)
    (h : standardize df m sn dc fs = Except.ok (recs, stats)) :
    stats.kept_rows + stats.empty_order_removed +
      (stats.duplicate_rows -
        distinctDupKeys ((nonEmptyKey df m dc).map (fun r => r.order_no))) +
      stats.status_filtered_rows = stats.total_rows := by
  simp only [standardize] at h
  by_cases hM : requiredKeys.filter (fun k => m.get k == "") = []
  · rw [if_neg (fun hcon => hcon hM)] at h
    cases hF : m.items.find? (fun p => p.2 != "" && !(df.cols.contains p.2)) with
    | some p =>
      rw [hF] at h
      exact absurd h (by simp)
    | none =>
      rw [hF] at h
      have hpair := Except.ok.inj h
      have hstats : stats = SourceStats.mk sn (projectTable df m dc).length
          ((projectTable df m dc).length - (nonEmptyKey df m dc).length)
          (dupRowCount ((nonEmptyKey df m dc).map (fun r => r.order_no)))
          ((statusFilter fs m (dropDupKeys [] (nonEmptyKey df m dc))).2)
          ((statusFilter fs m (dropDupKeys [] (nonEmptyKey df m dc))).1.length) :=
        (congrArg Prod.snd hpair).symm
      rw [hstats]
      simp only
      have hs := statusFilter_acct fs m (dropDupKeys [] (nonEmptyKey df m dc))
      have hd := dropDupKeys_length (nonEmptyKey df m dc)
      have hk := key_accounting ((nonEmptyKey df m dc).map (fun r => r.order_no))
      have hl : ((nonEmptyKey df m dc).map (fun r => r.order_no)).length =
          (nonEmptyKey df m dc).length := List.length_map _ _
      have hfil : (nonEmptyKey df m dc).length ≤ (projectTable df m dc).length := by
        unfold nonEmptyKey
        exact List.length_filter_le _ _
      have hcard : ((nonEmptyKey df m dc).map (fun r => r.order_no)).toFinset.card ≤
          ((nonEmptyKey df m dc).map (fun r => r.order_no)).length :=
        List.toFinset_card_le _
      omega
  · rw [if_pos hM] at h
    exact absurd h (by simp)

/-- Concrete four-row table for the C2 witness: one duplicated key, one
empty key, one status-filtered row. -/
def c2row1 : Row :=
  [("o", Cell.str "1"), ("p", Cell.str "x"), ("s", Cell.str ""), ("st", Cell.str "交易成功")]

def c2row2 : Row :=
  [("o", Cell.str "1"), ("p", Cell.str "y"), ("s", Cell.str ""), ("st", Cell.str "已发货")]

def c2row3 : Row :=
  [("o", Cell.str ""), ("p", Cell.str "z"), ("s", Cell.str ""), ("st", Cell.str "")]

def c2row4 : Row :=
  [("o", Cell.str "2"), ("p", Cell.str "w"), ("s", Cell.str ""), ("st", Cell.str "bogus")]

def c2df : RawTable := RawTable.mk ["o", "p", "s", "st"] [c2row1, c2row2, c2row3, c2row4]

def c2map : Mapping := Mapping.mk "o" "st" "p" "s" ""

/-- Witness for C2 on the concrete table: 1 + 1 + (2 − 1) + 1 = 4. -/
theorem standardize_stats_accounting_witness :
    (SourceStats.mk "官方订单" 4 1 2 1 1).kept_rows +
      (SourceStats.mk "官方订单" 4 1 2 1 1).empty_order_removed +
      ((SourceStats.mk "官方订单" 4 1 2 1 1).duplicate_rows -
        distinctDupKeys ((nonEmptyKey c2df c2map 0).map (fun r => r.order_no))) +
      (SourceStats.mk "官方订单" 4 1 2 1 1).status_filtered_rows =
      (SourceStats.mk "官方订单" 4 1 2 1 1).total_rows :=
  standardize_stats_accounting c2df c2map "官方订单" 0 true
    [StdRecord.mk "1" "x" 0 0 "交易成功"] (SourceStats.mk "官方订单" 4 1 2 1 1) rfl

/-! Claim C5: duplicate counting and first-occurrence collapse. -/

/-- C5: `duplicate_rows` counts every row whose key occurs at least twice
(all members of each duplicate group, with their full multiplicity, not just
the extras), the collapse keeps exactly one row per key — the first
occurrence in original order — and on the concrete two-row table with keys
normalizing to "123" and product names "A" then "B", `standardize` reports
`duplicate_rows = 2`, keeps one row, and the survivor carries "A". -/
theorem standardize_duplicate_policy :
    (∀ ks : List String,
      dupRowCount ks = ∑ a ∈ ks.toFinset.filter (fun a => 2 ≤ ks.count a), ks.count a) ∧
    (∀ (l : List StdRecord) (r : StdRecord), r ∈ dropDupKeys [] l →
      l.find? (fun x => x.order_no == r.order_no) = some r) ∧
    (∀ (l : List StdRecord) (k : String),
      k ∈ (dropDupKeys [] l).map (fun r => r.order_no) ↔ k ∈ l.map (fun r => r.order_no)) ∧
    (∀ l : List StdRecord, ((dropDupKeys [] l).map (fun r => r.order_no)).Nodup) ∧
    standardize
      (RawTable.mk ["o", "p", "s"]
        [[("o", Cell.str "123"), ("p", Cell.str "A"), ("s", Cell.str "")],
         [("o", Cell.str "123"), ("p", Cell.str "B"), ("s", Cell.str "")]])
      (Mapping.mk "o" "" "p" "s" "") "官方订单" 0 false =
      Except.ok ([StdRecord.mk "123" "A" 0 0 ""], SourceStats.mk "官方订单" 2 0 2 0 1) := by
  refine ⟨dupRowCount_eq_sum, ?_, ?_, ?_, rfl⟩
  · intro l r hr
    exact ((dropDupKeys_props l []).2.1 r hr).2
  · intro l k
    rw [(dropDupKeys_props l []).2.2 k]
    simp
  · intro l
    exact (dropDupKeys_props l []).1

/-- Witness for C5: the survivor of the concrete duplicate group is the first
occurrence. -/
theorem standardize_duplicate_policy_witness :
    [StdRecord.mk "123" "A" 0 0 "", StdRecord.mk "123" "B" 0 0 ""].find?
      (fun x => x.order_no == (StdRecord.mk "123" "A" 0 0 "").order_no) =
      some (StdRecord.mk "123" "A" 0 0 "") :=
  standardize_duplicate_policy.2.1
    [StdRecord.mk "123" "A" 0 0 "", StdRecord.mk "123" "B" 0 0 ""]
    (StdRecord.mk "123" "A" 0 0 "")
    (by rw [show dropDupKeys []
        [StdRecord.mk "123" "A" 0 0 "", StdRecord.mk "123" "B" 0 0 ""] =
        [StdRecord.mk "123" "A" 0 0 ""] from rfl]
        exact List.mem_singleton_self _)

/-! Claim C8: pagination. -/

theorem int_ceilDiv_eq (a b : ℤ) (hb : 0 < b) :
    ((a + b - 1) / b : ℤ) = ⌈(a : ℚ) / (b : ℚ)⌉ := by
  have hbne : b ≠ 0 := ne_of_gt hb
  have hd := Int.ediv_add_emod (a + b - 1) b
  have hr0 : 0 ≤ (a + b - 1) % b := Int.emod_nonneg _ hbne
  have hrb : (a + b - 1) % b < b := Int.emod_lt_of_pos _ hb
  have hbq : (0 : ℚ) < (b : ℚ) := by exact_mod_cast hb
  symm
  rw [Int.ceil_eq_iff]
  constructor
  · rw [lt_div_iff₀ hbq]
    have hz : (((a + b - 1) / b) - 1) * b < a := by nlinarith [hd, hr0]
    exact_mod_cast hz
  · rw [div_le_iff₀ hbq]
    have hz : a ≤ ((a + b - 1) / b) * b := by nlinarith [hd, hrb]
    exact_mod_cast hz

/-- C8: the paginated read clamps the page size to [10, 500], computes
`total_pages = ⌈total_rows / page_size⌉` with a floor of 1 (also when
`total_rows = 0`), clamps the effective page into `[1, total_pages]`, and
returns exactly the row slice `[(page−1)·page_size, page·page_size)`; on 95
rows with page size 50 and requested page 5 it reports 2 total pages, clamps
to page 2 and returns rows 50..94. -/
theorem report_page_spec :
    (∀ (α : Type) (rows : List α) (pageReq psReq : Int),
      (10 ≤ (report_page rows pageReq psReq).page_size ∧
        (report_page rows pageReq psReq).page_size ≤ 500) ∧
      (report_page rows pageReq psReq).total_pages =
        max ⌈((report_page rows pageReq psReq).total_rows : ℚ) /
          ((report_page rows pageReq psReq).page_size : ℚ)⌉ 1 ∧
      (1 ≤ (report_page rows pageReq psReq).page ∧
        (report_page rows pageReq psReq).page ≤ (report_page rows pageReq psReq).total_pages) ∧
      (report_page rows pageReq psReq).records =
        (rows.drop (((report_page rows pageReq psReq).page - 1) *
            (report_page rows pageReq psReq).page_size).toNat).take
          (report_page rows pageReq psReq).page_size.toNat) ∧
    (report_page (List.range 95) 5 50).total_pages = 2 ∧
    (report_page (List.range 95) 5 50).page = 2 ∧
    (report_page (List.range 95) 5 50).records = List.range' 50 45 := by
  refine ⟨?_, by decide, by decide, by rfl⟩
  intro α rows pageReq psReq
  simp only [report_page]
  refine ⟨⟨by omega, by omega⟩, ?_, ?_, ?_⟩
  · rw [int_ceilDiv_eq (rows.length : ℤ) (min (max psReq 10) 500) (by omega)]
  · constructor
    · by_cases h : max pageReq 1 > max (((rows.length : ℤ) + min (max psReq 10) 500 - 1) /
          min (max psReq 10) 500) 1
      · rw [if_pos h]
        omega
      · rw [if_neg h]
        omega
    · by_cases h : max pageReq 1 > max (((rows.length : ℤ) + min (max psReq 10) 500 - 1) /
          min (max psReq 10) 500) 1
      · rw [if_pos h]
      · rw [if_neg h]
        omega
  · have hps : ((if max pageReq 1 > max (((rows.length : ℤ) + min (max psReq 10) 500 - 1) /
        min (max psReq 10) 500) 1 then max (((rows.length : ℤ) + min (max psReq 10) 500 - 1) /
        min (max psReq 10) 500) 1 else max pageReq 1) - 1) * min (max psReq 10) 500 +
        min (max psReq 10) 500 - ((if max pageReq 1 > max (((rows.length : ℤ) +
        min (max psReq 10) 500 - 1) / min (max psReq 10) 500) 1 then
        max (((rows.length : ℤ) + min (max psReq 10) 500 - 1) / min (max psReq 10) 500) 1
        else max pageReq 1) - 1) * min (max psReq 10) 500 = min (max psReq 10) 500 := by
      ring
    rw [hps]
    by_cases htot : (rows.length : ℤ) = 0
    · rw [if_neg (fun hcon => hcon htot)]
      have hnil : rows = [] := List.length_eq_zero.mp (by exact_mod_cast htot)
      rw [hnil]
      simp
    · rw [if_pos htot]

/-- Witness for C8 at a concrete input. -/
theorem report_page_spec_witness :
    10 ≤ (report_page ([0, 1, 2] : List Nat) 1 3).page_size ∧
      (report_page ([0, 1, 2] : List Nat) 1 3).page_size ≤ 500 :=
  (report_page_spec.1 Nat [0, 1, 2] 1 3).1

/-! Claim C4: summary aggregation. -/

/-- Modelled from the claim: the summary-eligible rows — Matched rows whose
status lies in the narrower summary set {交易成功, 已收货}. -/
def summaryEligible (res : CompareResult) : List CompareRow :=
  (res.rows.filter (fun r => r.result == "匹配")).filter
    (fun r => summaryStatus.contains r.status)

/-- C4: the three totals are the 2-decimal-rounded sums over exactly the
summary-eligible matched rows (so each total is 0 when that set is empty),
`loss_count` counts the summary-eligible rows with strictly negative profit,
and the summary-eligible status set excludes 已发货 although the
standardizer's acceptance set contains it. -/
theorem build_summary_spec (res : CompareResult) (os ss : SourceStats) :
    (build_summary res os ss).total_sales =
      round2 ((summaryEligible res).map (fun r => r.sales_amount)).sum ∧
    (build_summary res os ss).total_cost =
      round2 ((summaryEligible res).map (fun r => r.cost_amount)).sum ∧
    (build_summary res os ss).total_profit =
      round2 ((summaryEligible res).map (fun r => r.profit)).sum ∧
    (summaryEligible res = [] → (build_summary res os ss).total_sales = 0 ∧
      (build_summary res os ss).total_cost = 0 ∧
      (build_summary res os ss).total_profit = 0) ∧
    (build_summary res os ss).summary_count = (summaryEligible res).length ∧
    (build_summary res os ss).loss_count =
      (summaryEligible res).countP (fun r => decide (r.profit < 0)) ∧
    ("已发货" ∈ ALLOWED_STATUS ∧ "已发货" ∉ summaryStatus) := by
  have hmatched : (if res.rows ≠ [] then res.rows.filter (fun r => r.result == "匹配")
      else res.rows) = res.rows.filter (fun r => r.result == "匹配") := by
    by_cases hr : res.rows = []
    · simp [hr]
    · simp [hr]
  have hmsum : (if res.rows.filter (fun r => r.result == "匹配") ≠ [] then
      (res.rows.filter (fun r => r.result == "匹配")).filter
        (fun r => summaryStatus.contains r.status)
      else res.rows.filter (fun r => r.result == "匹配")) = summaryEligible res := by
    unfold summaryEligible
    by_cases hm : res.rows.filter (fun r => r.result == "匹配") = []
    · simp [hm]
    · simp [hm]
  have hround0 : round2 0 = 0 := by
    norm_num [round2]
  simp only [build_summary, hmatched, hmsum]
  by_cases hs : summaryEligible res = []
  · rw [if_neg (fun hcon => hcon hs), hs]
    simp [hround0]
    decide
  · simp only [if_pos hs]
    refine ⟨trivial, trivial, trivial, fun hcon => absurd hcon hs, trivial, trivial, ?_⟩
    decide

/-- Witness for C4: the empty comparison result yields zero totals. -/
theorem build_summary_spec_witness :
    (build_summary (CompareResult.mk resultColumns []) (SourceStats.mk "a" 0 0 0 0 0)
      (SourceStats.mk "b" 0 0 0 0 0)).total_sales = 0 ∧
    (build_summary (CompareResult.mk resultColumns []) (SourceStats.mk "a" 0 0 0 0 0)
      (SourceStats.mk "b" 0 0 0 0 0)).total_cost = 0 ∧
    (build_summary (CompareResult.mk resultColumns []) (SourceStats.mk "a" 0 0 0 0 0)
      (SourceStats.mk "b" 0 0 0 0 0)).total_profit = 0 :=
  (build_summary_spec (CompareResult.mk resultColumns []) (SourceStats.mk "a" 0 0 0 0 0)
    (SourceStats.mk "b" 0 0 0 0 0)).2.2.2.1 rfl

/-! Claims C1 and C3: properties of `compare_orders`. -/

theorem rowLe_total : ∀ a b : CompareRow, rowLe a b ∨ rowLe b a := by
  intro a b
  unfold rowLe
  rcases Nat.lt_trichotomy (rankOf a.result) (rankOf b.result) with h | h | h
  · exact Or.inl (Or.inl h)
  · rcases le_total a.order_no b.order_no with h2 | h2
    · exact Or.inl (Or.inr ⟨h, h2⟩)
    · exact Or.inr (Or.inr ⟨h.symm, h2⟩)
  · exact Or.inr (Or.inl h)

instance : IsTotal CompareRow rowLe := ⟨rowLe_total⟩

theorem rowLe_trans : ∀ a b c : CompareRow, rowLe a b → rowLe b c → rowLe a c := by
  intro a b c hab hbc
  unfold rowLe at hab hbc ⊢
  rcases hab with h1 | ⟨h1, h1b⟩ <;> rcases hbc with h2 | ⟨h2, h2b⟩
  · exact Or.inl (by omega)
  · exact Or.inl (by omega)
  · exact Or.inl (by omega)
  · exact Or.inr ⟨by omega, le_trans h1b h2b⟩

instance : IsTrans CompareRow rowLe := ⟨rowLe_trans⟩

theorem sortStrings_perm (l : List String) : (sortStrings l).Perm l :=
  List.perm_insertionSort _ l

theorem sortStrings_sorted (l : List String) :
    List.Sorted (fun a b => a ≤ b) (sortStrings l) :=
  List.sorted_insertionSort _ l

theorem zipWith_seq_map {α : Type} (g : CompareRow → α)
    (hg : ∀ (i : Nat) (r : CompareRow), g { r with seq := i } = g r) :
    ∀ (ns : List Nat) (l : List CompareRow),
      ((ns.zipWith (fun i r => { r with seq := i + 1 }) l).map g) =
        (l.take ns.length).map g := by
  intro ns
  induction ns with
  | nil =>
    intro l
    simp
  | cons n t ih =>
    intro l
    cases l with
    | nil => simp
    | cons a u =>
      simp only [List.zipWith_cons_cons, List.map_cons, List.length_cons,
        List.take_succ_cons]
      rw [hg, ih]

theorem renumber_map {α : Type} (g : CompareRow → α)
    (hg : ∀ (i : Nat) (r : CompareRow), g { r with seq := i } = g r)
    (l : List CompareRow) : (renumber l).map g = l.map g := by
  unfold renumber
  rw [zipWith_seq_map g hg (List.range l.length) l, List.length_range, List.take_length]

theorem renumber_length (l : List CompareRow) : (renumber l).length = l.length := by
  unfold renumber
  rw [List.length_zipWith, List.length_range]
  exact min_self _

theorem renumber_seq (l : List CompareRow) :
    (renumber l).map (fun r => r.seq) = List.range' 1 l.length := by
  have h : ∀ (ns : List Nat) (u : List CompareRow),
      ((ns.zipWith (fun i r => { r with seq := i + 1 }) u).map (fun r => r.seq)) =
        (ns.take u.length).map (fun i => i + 1) := by
    intro ns
    induction ns with
    | nil =>
      intro u
      simp
    | cons n t ih =>
      intro u
      cases u with
      | nil => simp
      | cons a v =>
        simp only [List.zipWith_cons_cons, List.map_cons, List.length_cons,
          List.take_succ_cons]
        rw [ih]
  unfold renumber
  rw [h, List.range'_eq_map_range]
  have htake : (List.range l.length).take l.length = List.range l.length := by
    have := List.take_length (List.range l.length)
    rwa [List.length_range] at this
  rw [htake]
  exact List.map_congr_left (fun a _ => Nat.add_comm a 1)

theorem mem_matchedIds (o s : List StdRecord) (k : String) :
    k ∈ matchedIds o s ↔
      (k ∈ o.map (fun r => r.order_no) ∧ k ∈ s.map (fun r => r.order_no)) := by
  unfold matchedIds
  rw [(sortStrings_perm _).mem_iff, List.mem_filter]
  simp [distinctKeys, List.mem_dedup]

theorem mem_missingIds (o s : List StdRecord) (k : String) :
    k ∈ missingIds o s ↔
      (k ∈ o.map (fun r => r.order_no) ∧ k ∉ s.map (fun r => r.order_no)) := by
  unfold missingIds
  rw [(sortStrings_perm _).mem_iff, List.mem_filter]
  simp [distinctKeys, List.mem_dedup]

theorem mem_extraIds (o s : List StdRecord) (k : String) :
    k ∈ extraIds o s ↔
      (k ∈ s.map (fun r => r.order_no) ∧ k ∉ o.map (fun r => r.order_no)) := by
  unfold extraIds
  rw [(sortStrings_perm _).mem_iff, List.mem_filter]
  simp [distinctKeys, List.mem_dedup]

theorem nodup_matchedIds (o s : List StdRecord) : (matchedIds o s).Nodup := by
  unfold matchedIds
  rw [(sortStrings_perm _).nodup_iff]
  exact (List.nodup_dedup _).filter _

theorem nodup_missingIds (o s : List StdRecord) : (missingIds o s).Nodup := by
  unfold missingIds
  rw [(sortStrings_perm _).nodup_iff]
  exact (List.nodup_dedup _).filter _

theorem nodup_extraIds (o s : List StdRecord) : (extraIds o s).Nodup := by
  unfold extraIds
  rw [(sortStrings_perm _).nodup_iff]
  exact (List.nodup_dedup _).filter _

theorem compareRowsRaw_keys (o s : List StdRecord) :
    (compareRowsRaw o s).map (fun r => r.order_no) =
      matchedIds o s ++ missingIds o s ++ extraIds o s := by
  unfold compareRowsRaw
  rw [List.map_append, List.map_append, List.map_map, List.map_map, List.map_map]
  have h1 : ((fun r : CompareRow => r.order_no) ∘ matchedRow o s) = id :=
    funext (fun k => rfl)
  have h2 : ((fun r : CompareRow => r.order_no) ∘ missingRow o) = id :=
    funext (fun k => rfl)
  have h3 : ((fun r : CompareRow => r.order_no) ∘ extraRow s) = id :=
    funext (fun k => rfl)
  rw [h1, h2, h3, List.map_id, List.map_id, List.map_id]

/-- When the raw row list is empty, both key lists are empty. -/
theorem compareRowsRaw_eq_nil (o s : List StdRecord)
    (h : compareRowsRaw o s = []) :
    o.map (fun r => r.order_no) = [] ∧ s.map (fun r => r.order_no) = [] := by
  unfold compareRowsRaw at h
  rw [List.append_eq_nil, List.append_eq_nil] at h
  obtain ⟨⟨hm, hmi⟩, hex⟩ := h
  rw [List.map_eq_nil_iff] at hm hmi hex
  have hodist : distinctKeys o = [] := by
    have hper := (sortStrings_perm
      ((distinctKeys o).filter (fun k => (distinctKeys s).contains k))).symm
    have hm₂ : (distinctKeys o).filter (fun k => (distinctKeys s).contains k) = [] := by
      unfold matchedIds at hm
      exact List.Perm.eq_nil (hm ▸ hper)
    have hmi₂ : (distinctKeys o).filter (fun k => !((distinctKeys s).contains k)) = [] := by
      have hper₂ := (sortStrings_perm
        ((distinctKeys o).filter (fun k => !((distinctKeys s).contains k)))).symm
      unfold missingIds at hmi
      exact List.Perm.eq_nil (hmi ▸ hper₂)
    have hlen := List.length_eq_length_filter_add
      (l := distinctKeys o) (fun k => (distinctKeys s).contains k)
    rw [hm₂, hmi₂] at hlen
    have hlz : (distinctKeys o).length = 0 := by simpa using hlen
    exact List.length_eq_zero.mp hlz
  have hsdist : distinctKeys s = [] := by
    have hper₃ := (sortStrings_perm
      ((distinctKeys s).filter (fun k => !((distinctKeys o).contains k)))).symm
    have hex₂ : (distinctKeys s).filter (fun k => !((distinctKeys o).contains k)) = [] := by
      unfold extraIds at hex
      exact List.Perm.eq_nil (hex ▸ hper₃)
    have : (distinctKeys s).filter (fun k => !((distinctKeys o).contains k)) =
        distinctKeys s := by
      rw [List.filter_eq_self]
      intro a _
      rw [hodist]
      rfl
    rw [this] at hex₂
    exact hex₂
  unfold distinctKeys at hodist hsdist
  rw [List.dedup_eq_nil] at hodist hsdist
  exact ⟨hodist, hsdist⟩

theorem compareRowsRaw_length (o s : List StdRecord) :
    (compareRowsRaw o s).length =
      ((o.map (fun r => r.order_no)).toFinset ∪
        (s.map (fun r => r.order_no)).toFinset).card := by
  have hlen : (compareRowsRaw o s).length =
      (matchedIds o s).length + (missingIds o s).length + (extraIds o s).length := by
    unfold compareRowsRaw
    simp [List.length_append]
    omega
  have hmm : (matchedIds o s).length + (missingIds o s).length =
      (distinctKeys o).length := by
    unfold matchedIds missingIds
    rw [(sortStrings_perm _).length_eq, (sortStrings_perm _).length_eq]
    exact (List.length_eq_length_filter_add _).symm
  have hod : (distinctKeys o).length = (o.map (fun r => r.order_no)).toFinset.card := by
    unfold distinctKeys
    exact (List.card_toFinset _).symm
  have hex : (extraIds o s).length =
      ((s.map (fun r => r.order_no)).toFinset \
        (o.map (fun r => r.order_no)).toFinset).card := by
    have hnodup : ((distinctKeys s).filter
        (fun k => !((distinctKeys o).contains k))).Nodup :=
      (List.nodup_dedup _).filter _
    unfold extraIds
    rw [(sortStrings_perm _).length_eq, ← List.toFinset_card_of_nodup hnodup]
    congr 1
    ext k
    rw [List.mem_toFinset, List.mem_filter, Finset.mem_sdiff, List.mem_toFinset,
      List.mem_toFinset]
    simp [distinctKeys, List.mem_dedup]
  have huni : ((o.map (fun r => r.order_no)).toFinset ∪
      (s.map (fun r => r.order_no)).toFinset).card =
      (o.map (fun r => r.order_no)).toFinset.card +
      ((s.map (fun r => r.order_no)).toFinset \
        (o.map (fun r => r.order_no)).toFinset).card := by
    rw [← Finset.union_sdiff_self_eq_union]
    exact Finset.card_union_of_disjoint Finset.disjoint_sdiff
  omega

theorem compareRowsRaw_count (o s : List StdRecord) (k : String) :
    ((compareRowsRaw o s).map (fun r => r.order_no)).count k =
      (if k ∈ (o.map (fun r => r.order_no)).toFinset ∪
          (s.map (fun r => r.order_no)).toFinset then 1 else 0) := by
  rw [compareRowsRaw_keys, List.count_append, List.count_append]
  have hcnt : ∀ (l : List String), l.Nodup → (l.count k = if k ∈ l then 1 else 0) := by
    intro l hn
    by_cases hm : k ∈ l
    · rw [if_pos hm]
      exact List.count_eq_one_of_mem hn hm
    · rw [if_neg hm]
      exact List.count_eq_zero.mpr hm
  rw [hcnt _ (nodup_matchedIds o s), hcnt _ (nodup_missingIds o s),
    hcnt _ (nodup_extraIds o s)]
  by_cases h1 : k ∈ o.map (fun r => r.order_no) <;>
    by_cases h2 : k ∈ s.map (fun r => r.order_no) <;>
    simp [mem_matchedIds, mem_missingIds, mem_extraIds, h1, h2]

/-- C3: every order number in the union of the two key sets appears in
exactly one output row (and no other key appears), the number of output rows
is the size of the union, the rows are sorted by classification rank then by
order number, sequence numbers run 1..N after sorting, and the result always
carries the full column schema — in particular an empty input pair gives an
empty row list with the schema intact. -/
theorem compare_orders_partition_sorted (official service : List StdRecord)
    (ho : (official.map (fun r => r.order_no)).Nodup)
    (hs : (service.map (fun r => r.order_no)).Nodup) :
    (∀ k : String,
      (compare_orders official service).rows.countP (fun r => r.order_no == k) =
        if k ∈ (official.map (fun r => r.order_no)).toFinset ∪
            (service.map (fun r => r.order_no)).toFinset then 1 else 0) ∧
    (compare_orders official service).rows.length =
      ((official.map (fun r => r.order_no)).toFinset ∪
        (service.map (fun r => r.order_no)).toFinset).card ∧
    List.Pairwise rowLe (compare_orders official service).rows ∧
    (compare_orders official service).rows.map (fun r => r.seq) =
      List.range' 1 (compare_orders official service).rows.length ∧
    (∀ o2 s2 : List StdRecord, (compare_orders o2 s2).columns = resultColumns) ∧
    (compare_orders [] []).rows = ([] : List CompareRow) := by
  have hcols : ∀ o2 s2 : List StdRecord,
      (compare_orders o2 s2).columns = resultColumns := by
    intro o2 s2
    unfold compare_orders
    split <;> rfl
  have hcountP : ∀ (l : List CompareRow) (k : String),
      l.countP (fun r => r.order_no == k) = (l.map (fun r => r.order_no)).count k := by
    intro l k
    rw [List.count, List.countP_map]
    rfl
  by_cases hraw : compareRowsRaw official service = []
  · have hrows : (compare_orders official service).rows = [] := by
      unfold compare_orders
      rw [if_pos hraw]
    obtain ⟨hko, hks⟩ := compareRowsRaw_eq_nil official service hraw
    refine ⟨?_, ?_, ?_, ?_, hcols, rfl⟩
    · intro k
      rw [hrows, hko, hks]
      simp
    · rw [hrows, hko, hks]
      simp
    · rw [hrows]
      exact List.Pairwise.nil
    · rw [hrows]
      simp
  · have hrows : (compare_orders official service).rows =
        renumber ((compareRowsRaw official service).insertionSort rowLe) := by
      unfold compare_orders
      rw [if_neg hraw]
    refine ⟨?_, ?_, ?_, ?_, hcols, rfl⟩
    · intro k
      rw [hrows, hcountP, renumber_map (fun r => r.order_no) (fun i r => rfl)]
      have hperm : ((compareRowsRaw official service).insertionSort rowLe).map
          (fun r => r.order_no) |>.Perm
          ((compareRowsRaw official service).map (fun r => r.order_no)) :=
        (List.perm_insertionSort rowLe _).map _
      rw [hperm.count_eq]
      exact compareRowsRaw_count official service k
    · rw [hrows, renumber_length, (List.perm_insertionSort rowLe _).length_eq]
      exact compareRowsRaw_length official service
    · rw [hrows]
      have hsorted : List.Pairwise rowLe
          ((compareRowsRaw official service).insertionSort rowLe) :=
        List.sorted_insertionSort rowLe _
      have hmap := renumber_map (fun r => (rankOf r.result, r.order_no)) (fun i r => rfl)
        ((compareRowsRaw official service).insertionSort rowLe)
      have h1 : List.Pairwise (fun a b : Nat × String => a.1 < b.1 ∨ (a.1 = b.1 ∧ a.2 ≤ b.2))
          ((renumber ((compareRowsRaw official service).insertionSort rowLe)).map
            (fun r => (rankOf r.result, r.order_no))) := by
        rw [hmap]
        exact List.pairwise_map.mpr (hsorted.imp (fun h => h))
      exact (List.pairwise_map.mp h1).imp (fun h => h)
    · rw [hrows, renumber_seq, renumber_length]

/-- Concrete inputs for the C3 witness. -/
def c3o : List StdRecord :=
  [StdRecord.mk "9" "a" 0 1 "交易成功", StdRecord.mk "10" "b" 7 2 "已发货"]

def c3s : List StdRecord :=
  [StdRecord.mk "9" "" 50 30 "", StdRecord.mk "11" "c" 4 9 "x"]

/-- Witness for C3 on a concrete pair with one matched, one missing, one
extra key. -/
theorem compare_orders_partition_sorted_witness :
    (compare_orders c3o c3s).rows.length =
      ((c3o.map (fun r => r.order_no)).toFinset ∪
        (c3s.map (fun r => r.order_no)).toFinset).card :=
  (compare_orders_partition_sorted c3o c3s (by decide) (by decide)).2.1

/-- The sequence-free content of a comparison row. -/
def rowCore (r : CompareRow) : String × String × ℚ × ℚ × ℚ × String × String :=
  (r.order_no, r.product_name, r.sales_amount, r.cost_amount, r.profit, r.status, r.result)

/-- Any matched key contributes a row to the final result whose content is
that of `matchedRow` (only the sequence number is assigned later). -/
theorem matched_core_mem (official service : List StdRecord) (k : String)
    (hko : k ∈ official.map (fun r => r.order_no))
    (hks : k ∈ service.map (fun r => r.order_no)) :
    ∃ r ∈ (compare_orders official service).rows,
      rowCore r = rowCore (matchedRow official service k) := by
  have hmem : k ∈ matchedIds official service :=
    (mem_matchedIds official service k).mpr ⟨hko, hks⟩
  have hrow : matchedRow official service k ∈ compareRowsRaw official service := by
    unfold compareRowsRaw
    exact List.mem_append_left _ (List.mem_append_left _ (List.mem_map_of_mem _ hmem))
  have hraw : compareRowsRaw official service ≠ [] := List.ne_nil_of_mem hrow
  have hrows : (compare_orders official service).rows =
      renumber ((compareRowsRaw official service).insertionSort rowLe) := by
    unfold compare_orders
    rw [if_neg hraw]
  have hsort : matchedRow official service k ∈
      (compareRowsRaw official service).insertionSort rowLe :=
    ((List.perm_insertionSort rowLe _).mem_iff).mpr hrow
  have hmap := renumber_map rowCore (fun i r => rfl)
    ((compareRowsRaw official service).insertionSort rowLe)
  have hin : rowCore (matchedRow official service k) ∈
      (renumber ((compareRowsRaw official service).insertionSort rowLe)).map rowCore := by
    rw [hmap]
    exact List.mem_map_of_mem _ hsort
  obtain ⟨r, hr, hcore⟩ := List.mem_map.mp hin
  refine ⟨r, ?_, hcore⟩
  rw [hrows]
  exact hr

/-- C1 (amended): for a matched order number, the output row carries
`round(v, 2)` as sales where `v` is the official value unless exactly zero
(else the service value), `round(w, 2)` as cost where `w` is the service
value unless exactly zero (else the official value), the official status
unless empty (else the service status), the service product name unless
empty (else the official name), and `profit = round(v − w, 2)` computed from
the unrounded selected values. -/
theorem compare_orders_matched_fields (official service : List StdRecord) (k : String)
    (hko : k ∈ official.map (fun r => r.order_no))
    (hks : k ∈ service.map (fun r => r.order_no)) :
    ∃ r ∈ (compare_orders official service).rows,
      r.order_no = k ∧
      r.sales_amount = round2 (if (findRec official k).sales_amount ≠ 0
        then (findRec official k).sales_amount else (findRec service k).sales_amount) ∧
      r.cost_amount = round2 (if (findRec service k).cost_amount ≠ 0
        then (findRec service k).cost_amount else (findRec official k).cost_amount) ∧
      r.profit = round2 ((if (findRec official k).sales_amount ≠ 0
        then (findRec official k).sales_amount else (findRec service k).sales_amount) -
        (if (findRec service k).cost_amount ≠ 0
        then (findRec service k).cost_amount else (findRec official k).cost_amount)) ∧
      r.status = (if (findRec official k).status ≠ "" then (findRec official k).status
        else (findRec service k).status) ∧
      r.product_name = (if (findRec service k).product_name ≠ ""
        then (findRec service k).product_name else (findRec official k).product_name) ∧
      r.result = "匹配" := by
  obtain ⟨r, hr, hcore⟩ := matched_core_mem official service k hko hks
  exact ⟨r, hr,
    congrArg (fun t => t.1) hcore,
    congrArg (fun t => t.2.2.1) hcore,
    congrArg (fun t => t.2.2.2.1) hcore,
    congrArg (fun t => t.2.2.2.2.1) hcore,
    congrArg (fun t => t.2.2.2.2.2.1) hcore,
    congrArg (fun t => t.2.1) hcore,
    congrArg (fun t => t.2.2.2.2.2.2) hcore⟩

/-- Concrete matched pair on which the original C1 wording fails: the
official sales value 1.999 is nonzero, but the output row stores its
2-decimal rounding 2, not the value itself. -/
def cexOfficial : List StdRecord := [StdRecord.mk "1" "po" (1999/1000) 10 "交易成功"]

def cexService : List StdRecord := [StdRecord.mk "1" "ps" 5 3 "已收货"]

/-- Counterexample to C1 as stated: for the matched key "1" the official
sales value is nonzero yet the output row's sales_amount differs from it
(because the code rounds it to 2 decimals). -/
theorem compare_orders_matched_fields_counterexample :
    ∃ r ∈ (compare_orders cexOfficial cexService).rows,
      r.order_no = "1" ∧ (findRec cexOfficial "1").sales_amount ≠ 0 ∧
      r.sales_amount ≠ (findRec cexOfficial "1").sales_amount := by
  obtain ⟨r, hr, hcore⟩ :=
    matched_core_mem cexOfficial cexService "1" (by decide) (by decide)
  have hrec : findRec cexOfficial "1" = StdRecord.mk "1" "po" (1999/1000) 10 "交易成功" :=
    rfl
  have hne : ((1999 : ℚ)/1000) ≠ 0 := by norm_num
  refine ⟨r, hr, congrArg (fun t => t.1) hcore, ?_, ?_⟩
  · rw [hrec]
    exact hne
  · have hsal : r.sales_amount = (matchedRow cexOfficial cexService "1").sales_amount :=
      congrArg (fun t => t.2.2.1) hcore
    have h1 : (matchedRow cexOfficial cexService "1").sales_amount =
        round2 (1999/1000) := by
      simp only [matchedRow, hrec]
      rw [if_pos hne]
    rw [hsal, h1, hrec]
    norm_num [round2, round_eq]

/-- Concrete inputs for the C1 witness: official sales zero (falls back to
the service value), service product name non-empty. -/
def w1o : List StdRecord := [StdRecord.mk "1" "a" 0 2 "交易成功"]

def w1s : List StdRecord := [StdRecord.mk "1" "b" 50 3 ""]

/-- Witness for C1 (amended) at a concrete matched pair. -/
theorem compare_orders_matched_fields_witness :
    ∃ r ∈ (compare_orders w1o w1s).rows,
      r.order_no = "1" ∧
      r.sales_amount = round2 (if (findRec w1o "1").sales_amount ≠ 0
        then (findRec w1o "1").sales_amount else (findRec w1s "1").sales_amount) ∧
      r.cost_amount = round2 (if (findRec w1s "1").cost_amount ≠ 0
        then (findRec w1s "1").cost_amount else (findRec w1o "1").cost_amount) ∧
      r.profit = round2 ((if (findRec w1o "1").sales_amount ≠ 0
        then (findRec w1o "1").sales_amount else (findRec w1s "1").sales_amount) -
        (if (findRec w1s "1").cost_amount ≠ 0
        then (findRec w1s "1").cost_amount else (findRec w1o "1").cost_amount)) ∧
      r.status = (if (findRec w1o "1").status ≠ "" then (findRec w1o "1").status
        else (findRec w1s "1").status) ∧
      r.product_name = (if (findRec w1s "1").product_name ≠ ""
        then (findRec w1s "1").product_name else (findRec w1o "1").product_name) ∧
      r.result = "匹配" :=
  compare_orders_matched_fields w1o w1s "1" (by decide) (by decide)

end App
